import Mathlib

/-!
# ASCII-Image: the pixel-to-glyph mapping and the render loop of `main.cpp`

A shallow embedding of the part of `src/main.cpp` that turns decoded pixels into
lines of text (lines 17-19 and 123-143), followed by the properties of that code.

Conventions of the embedding:

* `float` is IEEE-754 binary32 with round-to-nearest-even, every operation rounded to
  binary32 (no excess precision).  A finite non-negative binary32 value is stored as the
  natural number of multiples of `2^-149` it amounts to, so all arithmetic is exact
  arithmetic on naturals.
* The `int` locals `red`, `green`, `blue`, `average`, `index` are never negative and never
  exceed `765`, so they are naturals; the subscript `densitySize - index` is an `Int`.
* `std::string` is `String`, `std::vector<std::string>` is `List String`.
* Reading `density[pos]` is defined for `0 ≤ pos ≤ density.size()` (a `std::string` yields
  the null character at `pos == size()`) and undefined elsewhere, hence `Option`.
-/

namespace AsciiImage

/-! ## binary32 arithmetic -/

/-- Number of multiples of `2^-149` in `1.0`; a binary32 value `v` is stored as `v * 2^149`. -/
def F32.unit : Nat := 2 ^ 149

/-- Quotient `a / b` rounded to the nearest natural, ties to the even one. -/
def roundHalfEven (a b : Nat) : Nat :=
  let d := a / b
  let r := a % b
  if 2 * r < b then d
  else if b < 2 * r then d + 1
  else if d % 2 = 0 then d else d + 1

/-- Number of low bits a stored value of size `t` cannot keep in a 24-bit significand:
the largest `s ≤ 255` with `2^(23+s) ≤ t` (`0` when `t < 2^24`), found bit by bit. -/
def F32.excess (t : Nat) : Nat :=
  [128, 64, 32, 16, 8, 4, 2, 1].foldl
    (fun s k => if 2 ^ (23 + s + k) ≤ t then s + k else s) 0

/-- The binary32 value nearest to the rational `p / q` (ties to even), as a stored value.
The spacing of binary32 values around `p / q` is `2^s` stored units. -/
def F32.round (p q : Nat) : Nat :=
  let t := p * F32.unit / q
  let s := F32.excess t
  roundHalfEven (p * F32.unit) (q * 2 ^ s) * 2 ^ s

/-- Conversion `int → float` of a non-negative integer. -/
def F32.ofInt (k : Nat) : Nat := F32.round k 1

/-- Division `a / b` of two stored binary32 values, rounded to binary32. -/
def F32.div (a b : Nat) : Nat := F32.round a b

/-- Conversion `float → int` of a non-negative value: truncation. -/
def F32.toInt (a : Nat) : Nat := a / F32.unit

/-! ## Globals of `main.cpp` (lines 17-19) -/

/-- The ramp `density` of line 17, 70 characters from `$` to the blank.  The characters
written by code are: backslash, the two braces (`\x7b`, `\x7d`), the double quote, the
backtick (`\x60`) and the apostrophe (`\x27`). -/
def density : String :=
  "$@B%8&WM#*oahkbdpqwmZO0QLCJUYXzcvunxrjft/\\|()1\x7b\x7d[]?-_+~<>i!lI;:,\"^\x60\x27. "

/-- Line 18: `const int densitySize = density.length();`. -/
def densitySize : Int := density.length

/-- Line 19: `const float indexVal = (float)256 / densitySize;`. -/
def indexVal : Nat := F32.div (F32.ofInt 256) (F32.ofInt densitySize.toNat)

/-- Subscript `density[pos]` on the constant string: a ramp character for
`0 ≤ pos < size`, the null character for `pos = size`, undefined otherwise. -/
def densityAt (pos : Int) : Option Char :=
  if 0 ≤ pos ∧ pos < densitySize then density.data[pos.toNat]?
  else if pos = densitySize then some (Char.ofNat 0)
  else none

/-! ## Pixels -/

/-- A Windows `COLORREF`, the value `0x00bbggrr`. -/
abbrev COLORREF := Nat

/-- Modelled from the spec: the Windows macro `RGB` is not under `src/`; a pixel is
"a triple of 8-bit unsigned integers (red, green, blue)", packed here as `0x00bbggrr`. -/
def RGB (red green blue : Nat) : COLORREF :=
  red % 256 + 256 * (green % 256) + 65536 * (blue % 256)

/-- Modelled from the spec: the Windows macro `GetRValue` is not under `src/`; it yields
the red channel, an 8-bit unsigned integer, the low byte of the `COLORREF`. -/
def GetRValue (color : COLORREF) : Nat := color % 256

/-- Modelled from the spec: the Windows macro `GetGValue` is not under `src/`; it yields
the green channel, an 8-bit unsigned integer, the second byte of the `COLORREF`. -/
def GetGValue (color : COLORREF) : Nat := color / 256 % 256

/-- Modelled from the spec: the Windows macro `GetBValue` is not under `src/`; it yields
the blue channel, an 8-bit unsigned integer, the third byte of the `COLORREF`. -/
def GetBValue (color : COLORREF) : Nat := color / 65536 % 256

/-! ## The per-pixel mapping (lines 133-140) -/

/-- Line 137: `int average = (red + green + blue) / 3;`. -/
def average (red green blue : Nat) : Nat := (red + green + blue) / 3

/-- Line 138: `int index = average / indexVal;` - the `int` is converted to `float`, the
division is a `float` division, the quotient is truncated to `int`. -/
def index (average : Nat) : Nat := F32.toInt (F32.div (F32.ofInt average) indexVal)

/-- The subscript of line 140, `densitySize - index`, as a function of the brightness. -/
def position (average : Nat) : Int := densitySize - index average

/-- Lines 133-140 for one pixel: the character appended to `column`. -/
def pixelChar (color : COLORREF) : Option Char :=
  let red := GetRValue color
  let green := GetGValue color
  let blue := GetBValue color
  densityAt (position (average red green blue))

/-! ## The render loop (lines 123-143) -/

/-- The inner loop, lines 127-141: `column` after `x` has run over `0 .. width - 1`.
`GetPixel x y` stands for the call `GetPixel(hdcMem, x, y)`. -/
def renderRow (GetPixel : Nat → Nat → COLORREF) (width y : Nat) : Option String :=
  (List.range width).foldlM
    (fun column x => (pixelChar (GetPixel x y)).map (fun c => column.push c)) ""

/-- The outer loop, lines 123-143: the vector `ascii` after `y` has run over
`0 .. height - 1`. -/
def render (GetPixel : Nat → Nat → COLORREF) (width height : Nat) : Option (List String) :=
  (List.range height).foldlM
    (fun ascii y => (renderRow GetPixel width y).map (fun column => ascii ++ [column])) []

/-! ## Images -/

/-- The decoded image: `width`, `height` and the pixels in row-major order. -/
structure Image where
  width : Nat
  height : Nat
  pixels : List COLORREF

/-- What `GetPixel` answers outside the bitmap (`CLR_INVALID`). -/
def CLR_INVALID : COLORREF := 0xFFFFFFFF

/-- Modelled from the spec: the GDI call `GetPixel(hdcMem, x, y)` is not under `src/`;
the image is "a row-major sequence of exactly W×H Pixels", so the pixel at column `x` of
row `y` is entry `y * W + x`. -/
def Image.GetPixel (img : Image) (x y : Nat) : COLORREF :=
  img.pixels.getD (y * img.width + x) CLR_INVALID

/-- The render loop run on an image. -/
def Image.render (img : Image) : Option (List String) :=
  AsciiImage.render img.GetPixel img.width img.height

/-- Row `y` of a row-major image. -/
def Image.row (img : Image) (y : Nat) : List COLORREF :=
  (img.pixels.drop (y * img.width)).take img.width

/-- The rendering as the specification words it: the per-pixel mapping applied to every
pixel of every row, rows top to bottom, pixels left to right. -/
def Image.renderSpec (img : Image) : Option (List String) :=
  (List.range img.height).mapM
    (fun y => ((img.row y).mapM pixelChar).map String.mk)

/-- The index as the specification words it: `floor(brightness / step)` with
`step = 256 / rampSize` a real-valued (here rational) quotient. -/
def specIndex (brightness : Nat) : Int :=
  ⌊(brightness : ℚ) / (256 / (density.length : ℚ))⌋

/-- The ramp position as the specification words it: `rampSize - 1 - index`. -/
def specPosition (brightness : Nat) : Int :=
  (density.length : Int) - 1 - specIndex brightness

/-- A 2 x 2 sample image: black, white in the first row, mid grey, dark grey in the second. -/
def sampleImage : Image := Image.mk 2 2 [0, 0xFFFFFF, 0x808080, 0x404040]

/-- The character the per-pixel mapping appends, the null character standing in where the
subscript would be undefined (which `pixelChar_eq_glyph` shows never happens). -/
def glyph (color : COLORREF) : Char := (pixelChar color).getD (Char.ofNat 0)


/-! ## Auxiliary facts -/

theorem densitySize_eq : densitySize = 70 := by decide

/-- The constant `indexVal` is the binary32 value `15339169 * 2^-22` (bit pattern
`0x406A0EA1`, about `3.6571429`), slightly above `256 / 70`. -/
theorem indexVal_eq : indexVal = 15339169 * 2 ^ 127 := by decide

/-- Rounding check: `1 / 3` rounds to `11184811 * 2^-25` (bit pattern `0x3EAAAAAB`). -/
theorem round_one_third : F32.round 1 3 = 11184811 * 2 ^ 124 := by decide

/-- Integers below `2^24` convert to `float` exactly, here the largest brightness. -/
theorem ofInt_255 : F32.ofInt 255 = 255 * F32.unit := by decide

/-- The one brightness whose exact quotient by `256 / 70` is a positive integer: the
binary32 quotient `128 / indexVal` lies just below `35` and rounds to exactly `35.0`. -/
theorem div_128_indexVal : F32.div (F32.ofInt 128) indexVal = 35 * F32.unit := by decide

theorem density_length : density.data.length = 70 := by decide

set_option maxRecDepth 100000 in
theorem index_fin : ∀ a : Fin 256, index a = a * 70 / 256 := by decide

theorem index_eq (a : Nat) (h : a ≤ 255) : index a = a * 70 / 256 :=
  index_fin ⟨a, by omega⟩

theorem position_eq (a : Nat) (h : a ≤ 255) : position a = 70 - ((a * 70 / 256 : Nat) : Int) := by
  unfold position
  rw [index_eq a h, densitySize_eq]

theorem GetRValue_le (color : COLORREF) : GetRValue color ≤ 255 := by
  unfold GetRValue; omega

theorem GetGValue_le (color : COLORREF) : GetGValue color ≤ 255 := by
  unfold GetGValue; omega

theorem GetBValue_le (color : COLORREF) : GetBValue color ≤ 255 := by
  unfold GetBValue; omega

theorem channels_RGB (r g b : Nat) (hr : r ≤ 255) (hg : g ≤ 255) (hb : b ≤ 255) :
    GetRValue (RGB r g b) = r ∧ GetGValue (RGB r g b) = g ∧ GetBValue (RGB r g b) = b := by
  unfold GetRValue GetGValue GetBValue RGB
  omega

theorem average_le (r g b : Nat) (hr : r ≤ 255) (hg : g ≤ 255) (hb : b ≤ 255) :
    average r g b ≤ 255 := by
  unfold average; omega

theorem position_bounds (a : Nat) (h : a ≤ 255) : 1 ≤ position a ∧ position a ≤ 70 := by
  rw [position_eq a h]
  omega

theorem densityAt_defined (pos : Int) (h0 : 0 ≤ pos) (h1 : pos ≤ 70) :
    ∃ c, densityAt pos = some c := by
  unfold densityAt
  rw [densitySize_eq]
  by_cases hlt : pos < 70
  · rw [if_pos ⟨h0, hlt⟩]
    have hn : pos.toNat < density.data.length := by
      rw [density_length]; omega
    exact ⟨density.data[pos.toNat], List.getElem?_eq_getElem hn⟩
  · have hp : pos = 70 := by omega
    subst hp
    exact ⟨Char.ofNat 0, by simp⟩

theorem pixelChar_eq_glyph (color : COLORREF) : pixelChar color = some (glyph color) := by
  have ha := average_le _ _ _ (GetRValue_le color) (GetGValue_le color) (GetBValue_le color)
  have hp := position_bounds _ ha
  obtain ⟨c, hc⟩ := densityAt_defined _ (by omega) hp.2
  have h : pixelChar color = some c := hc
  simp [glyph, h]


theorem renderRow_eq (GetPixel : Nat → Nat → COLORREF) (width y : Nat) :
    renderRow GetPixel width y
      = some (String.mk ((List.range width).map (fun x => glyph (GetPixel x y)))) := by
  unfold renderRow
  induction width with
  | zero => rfl
  | succ n ih =>
    rw [List.range_succ, List.foldlM_append, ih]
    simp [pixelChar_eq_glyph, String.push]

theorem render_eq (GetPixel : Nat → Nat → COLORREF) (width height : Nat) :
    render GetPixel width height
      = some ((List.range height).map
          (fun y => String.mk ((List.range width).map (fun x => glyph (GetPixel x y))))) := by
  unfold render
  induction height with
  | zero => rfl
  | succ n ih =>
    rw [List.range_succ, List.foldlM_append, ih]
    simp [renderRow_eq]

theorem mapM_eq_some {α β : Type} (f : α → Option β) (g : α → β) (l : List α)
    (h : ∀ a ∈ l, f a = some (g a)) : l.mapM f = some (l.map g) := by
  induction l with
  | nil => rfl
  | cons p ps ih =>
    rw [List.mapM_cons, ih (fun a ha => h a (List.mem_cons_of_mem p ha)),
      h p (List.mem_cons_self p ps)]
    rfl

theorem row_eq (img : Image) (y : Nat) (hy : (y + 1) * img.width ≤ img.pixels.length) :
    img.row y = (List.range img.width).map (fun x => img.GetPixel x y) := by
  have hw : (y + 1) * img.width = y * img.width + img.width := by ring
  apply List.ext_getElem
  · simp [Image.row]
    omega
  · intro n h1 h2
    simp at h2
    have hn : y * img.width + n < img.pixels.length := by omega
    simp [Image.row, Image.GetPixel, List.getElem?_eq_getElem hn]

theorem renderSpec_eq (img : Image) (hsize : img.pixels.length = img.width * img.height) :
    img.renderSpec
      = some ((List.range img.height).map
          (fun y => String.mk ((List.range img.width).map (fun x => glyph (img.GetPixel x y))))) := by
  unfold Image.renderSpec
  apply mapM_eq_some
  intro y hy
  have hy2 : y + 1 ≤ img.height := by
    have := List.mem_range.mp hy
    omega
  have hle : (y + 1) * img.width ≤ img.pixels.length := by
    rw [hsize, Nat.mul_comm]
    exact Nat.mul_le_mul_left _ hy2
  rw [mapM_eq_some pixelChar glyph _ (fun a _ => pixelChar_eq_glyph a), row_eq img y hle,
    List.map_map]
  rfl


theorem specIndex_eq (a : Nat) : specIndex a = ((a * 70 / 256 : Nat) : Int) := by
  unfold specIndex
  have h : density.length = 70 := by decide
  rw [h]
  have hq : (a : ℚ) / (256 / ((70 : Nat) : ℚ)) = ((a * 70 : Nat) : ℚ) / ((256 : Nat) : ℚ) := by
    push_cast
    field_simp
  rw [hq, Rat.floor_natCast_div_natCast]
  norm_cast

theorem index_eq_specIndex (a : Nat) (h : a ≤ 255) : (index a : Int) = specIndex a := by
  rw [specIndex_eq, index_eq a h]

theorem position_eq_specPosition_succ (a : Nat) (h : a ≤ 255) :
    position a = specPosition a + 1 := by
  have hl : ((density.length : Nat) : Int) = 70 := by decide
  unfold specPosition
  rw [position_eq a h, specIndex_eq, hl]
  omega

/-! ## The claims -/

/-- C1 (the code departs from the claim): at the pixel (100, 100, 100) the brightness is
100 and the computed index is 27, as the claim says, but the program subscripts the ramp
at `densitySize - index = 43` and appends `(`, whereas the claimed position
`rampSize - 1 - index = 42` holds `|`. -/
theorem pixelChar_position_off_by_one :
    average (GetRValue (RGB 100 100 100)) (GetGValue (RGB 100 100 100))
        (GetBValue (RGB 100 100 100)) = 100 ∧
      (index 100 : Int) = specIndex 100 ∧ index 100 = 27 ∧
      position 100 = 43 ∧ specPosition 100 = 42 ∧
      pixelChar (RGB 100 100 100) = some (Char.ofNat 40) ∧
      densityAt (specPosition 100) = some (Char.ofNat 124) ∧
      pixelChar (RGB 100 100 100) ≠ densityAt (specPosition 100) := by
  have hs : specPosition 100 = 42 := by
    unfold specPosition; rw [specIndex_eq]; decide
  have hi : specIndex 100 = 27 := by rw [specIndex_eq]; decide
  rw [hs, hi]
  decide

/-- C2 (the code departs from the claim): at the pixel (3, 4, 4) the brightness is 3, the
index is 0 and the program subscripts the ramp at position 70, which is not in
`[0, rampSize - 1]`; the character read there is the string terminator, not a ramp
character. -/
theorem position_past_ramp_at_dark_pixel :
    average (GetRValue (RGB 3 4 4)) (GetGValue (RGB 3 4 4)) (GetBValue (RGB 3 4 4)) = 3 ∧
      position 3 = 70 ∧ ¬ (position 3 ≤ densitySize - 1) ∧
      pixelChar (RGB 3 4 4) = some (Char.ofNat 0) := by
  decide

/-- C3: for every image (any pixel source `GetPixel`, any width and height) the render loop
finishes with a vector of exactly `height` lines, each of exactly `width` characters. -/
theorem render_dimensions (GetPixel : Nat → Nat → COLORREF) (width height : Nat) :
    ∃ ascii, render GetPixel width height = some ascii ∧ ascii.length = height ∧
      ∀ line ∈ ascii, line.length = width := by
  refine ⟨_, render_eq GetPixel width height, by simp, ?_⟩
  intro line hline
  simp only [List.mem_map] at hline
  obtain ⟨y, -, rfl⟩ := hline
  simp [String.length]

/-- C4: for every row-major image of `width * height` pixels the render loop yields exactly
the per-pixel mapping applied along every row, rows top to bottom and pixels left to right;
in particular the character at column `x` of line `y` is the per-pixel mapping of the pixel
at `(x, y)`, entry `y * width + x` of the pixel sequence. -/
theorem render_traversal_order (img : Image)
    (hsize : img.pixels.length = img.width * img.height) :
    img.render = img.renderSpec ∧
      ∀ y x, y < img.height → x < img.width →
        ∃ ascii line p, img.render = some ascii ∧ ascii[y]? = some line ∧
          img.pixels[y * img.width + x]? = some p ∧ line.data[x]? = pixelChar p := by
  constructor
  · rw [renderSpec_eq img hsize]
    exact render_eq _ _ _
  · intro y x hy hx
    have hlt : y * img.width + x < img.pixels.length := by
      rw [hsize, Nat.mul_comm img.width]
      calc y * img.width + x < y * img.width + img.width := by omega
        _ = (y + 1) * img.width := by ring
        _ ≤ img.height * img.width := Nat.mul_le_mul_right _ hy
    refine ⟨_, String.mk ((List.range img.width).map (fun x => glyph (img.GetPixel x y))),
      img.pixels[y * img.width + x], render_eq _ _ _, ?_, List.getElem?_eq_getElem hlt, ?_⟩
    · simp [List.getElem?_map, List.getElem?_range hy]
    · simp [List.getElem?_map, List.getElem?_range hx, pixelChar_eq_glyph, Image.GetPixel,
        List.getElem?_eq_getElem hlt]


/-- Witness of C4 on the 2 x 2 sample image. -/
theorem render_traversal_order_witness :
    sampleImage.pixels.length = sampleImage.width * sampleImage.height ∧
      (sampleImage.render = sampleImage.renderSpec ∧
        ∀ y x, y < sampleImage.height → x < sampleImage.width →
          ∃ ascii line p, sampleImage.render = some ascii ∧ ascii[y]? = some line ∧
            sampleImage.pixels[y * sampleImage.width + x]? = some p ∧
            line.data[x]? = pixelChar p) :=
  ⟨by decide, render_traversal_order sampleImage (by decide)⟩

/-- C5 (the code departs from the claim): at the pixel (0, 0, 0) the index is 0 and the
program subscripts the ramp at position 70, appending the string terminator (character
code 0); the last ramp character `ramp[rampSize - 1]`, the blank (code 32) at position 69,
is not what is emitted. -/
theorem pixelChar_black :
    pixelChar (RGB 0 0 0) = some (Char.ofNat 0) ∧
      densityAt (densitySize - 1) = some (Char.ofNat 32) ∧
      density.data.getLast? = some (Char.ofNat 32) ∧
      pixelChar (RGB 0 0 0) ≠ densityAt (densitySize - 1) := by
  decide

/-- C6 (the code departs from the claim): at the pixel (255, 255, 255) the index is 69 and
the program subscripts the ramp at position 1, appending `@`; the first ramp character
`ramp[0]`, which is `$`, is not what is emitted. -/
theorem pixelChar_white :
    index (average 255 255 255) = 69 ∧ position (average 255 255 255) = 1 ∧
      pixelChar (RGB 255 255 255) = some (Char.ofNat 64) ∧
      densityAt 0 = some (Char.ofNat 36) ∧
      pixelChar (RGB 255 255 255) ≠ densityAt 0 := by
  decide

/-- C7, as stated, fails: brightness 0 selects position 70 and brightness 255 selects
position 1, so the position for the smaller brightness is not below the other. -/
theorem position_not_monotone :
    (0 : Nat) ≤ 255 ∧ (255 : Nat) ≤ 255 ∧ ¬ (position 0 ≤ position 255) := by
  decide

/-- C7, amended: for all brightness values `b1 ≤ b2` in `[0, 255]` the ramp position
selected for `b2` is at most the one selected for `b1` (the position is non-increasing as
brightness increases). -/
theorem position_antitone (b1 b2 : Nat) (h12 : b1 ≤ b2) (h2 : b2 ≤ 255) :
    position b2 ≤ position b1 := by
  rw [position_eq b1 (by omega), position_eq b2 h2]
  omega

/-- Witness of the amended C7 at brightness 40 and 200. -/
theorem position_antitone_witness :
    (40 : Nat) ≤ 200 ∧ (200 : Nat) ≤ 255 ∧ position 200 ≤ position 40 :=
  ⟨by decide, by decide, position_antitone 40 200 (by decide) (by decide)⟩

/-- C8, as stated, fails: on an image of width 0 and height 1 the loop yields one empty
line, not the empty sequence. -/
theorem render_zero_width_not_empty :
    (Image.mk 0 1 []).render = some [""] ∧ (Image.mk 0 1 []).render ≠ some [] := by
  decide

/-- C8, amended: with height 0 the render loop yields the empty sequence, and with width 0
it yields `height` empty lines (the empty sequence only when the height is 0 too). -/
theorem render_degenerate :
    (∀ (GetPixel : Nat → Nat → COLORREF) (width : Nat),
        render GetPixel width 0 = some []) ∧
      (∀ (GetPixel : Nat → Nat → COLORREF) (height : Nat),
        render GetPixel 0 height = some (List.replicate height "")) := by
  constructor
  · intro GetPixel width
    rfl
  · intro GetPixel height
    rw [render_eq]
    congr 1
    induction height with
    | zero => rfl
    | succ n ih =>
      rw [List.range_succ, List.map_append, ih, List.replicate_succ']
      rfl

/-- C9, as stated, fails: at brightness 255 the computed index is not `rampSize`. -/
theorem index_white_ne_densitySize :
    average (GetRValue (RGB 255 255 255)) (GetGValue (RGB 255 255 255))
        (GetBValue (RGB 255 255 255)) = 255 ∧
      (index 255 : Int) ≠ densitySize := by
  decide

/-- C9, amended: for the pixel (255, 255, 255) the brightness is 255 and the computed
index is 69, which is `rampSize - 1`, the last valid index, and agrees with the truncation
of the real-valued quotient `255 / (256 / rampSize)`. -/
theorem index_white :
    average (GetRValue (RGB 255 255 255)) (GetGValue (RGB 255 255 255))
        (GetBValue (RGB 255 255 255)) = 255 ∧
      index 255 = 69 ∧ (index 255 : Int) = densitySize - 1 ∧
      (index 255 : Int) = specIndex 255 := by
  refine ⟨by decide, by decide, by decide, index_eq_specIndex 255 (by decide)⟩

/-- C10: for every pixel with channels in `[0, 255]` the program reads the ramp at position
`densitySize - index`; that position is `densitySize` (70, where the string holds its
terminator, character code 0) exactly when `red + green + blue ≤ 11`, and lies in
`[1, 69]` for every other pixel. -/
theorem position_eq_densitySize_iff (red green blue : Nat)
    (hr : red ≤ 255) (hg : green ≤ 255) (hb : blue ≤ 255) :
    pixelChar (RGB red green blue) = densityAt (position (average red green blue)) ∧
      position (average red green blue) = densitySize - index (average red green blue) ∧
      (position (average red green blue) = densitySize ↔ red + green + blue ≤ 11) ∧
      (red + green + blue ≤ 11 → pixelChar (RGB red green blue) = some (Char.ofNat 0)) ∧
      (11 < red + green + blue →
        1 ≤ position (average red green blue) ∧ position (average red green blue) ≤ 69) := by
  obtain ⟨h1, h2, h3⟩ := channels_RGB red green blue hr hg hb
  have hpc : pixelChar (RGB red green blue) = densityAt (position (average red green blue)) := by
    unfold pixelChar
    simp only [h1, h2, h3]
  have ha := average_le red green blue hr hg hb
  have hpos := position_eq _ ha
  have hiff : position (average red green blue) = densitySize ↔ red + green + blue ≤ 11 := by
    rw [hpos, densitySize_eq]
    unfold average
    omega
  refine ⟨hpc, rfl, hiff, ?_, ?_⟩
  · intro hsum
    rw [hpc, hiff.mpr hsum]
    decide
  · intro hsum
    rw [hpos]
    unfold average
    omega

/-- Witness of C10 at the pixel (200, 30, 7). -/
theorem position_eq_densitySize_iff_witness :
    (200 : Nat) ≤ 255 ∧ (30 : Nat) ≤ 255 ∧ (7 : Nat) ≤ 255 ∧
      (pixelChar (RGB 200 30 7) = densityAt (position (average 200 30 7)) ∧
        position (average 200 30 7) = densitySize - index (average 200 30 7) ∧
        (position (average 200 30 7) = densitySize ↔ 200 + 30 + 7 ≤ 11) ∧
        (200 + 30 + 7 ≤ 11 → pixelChar (RGB 200 30 7) = some (Char.ofNat 0)) ∧
        (11 < 200 + 30 + 7 →
          1 ≤ position (average 200 30 7) ∧ position (average 200 30 7) ≤ 69)) :=
  ⟨by decide, by decide, by decide,
    position_eq_densitySize_iff 200 30 7 (by decide) (by decide) (by decide)⟩

end AsciiImage
